import Mathlib

/-!
Verification of the NVIDIA-GPU-Monitor repository (src/main.go, two program
variants) against its natural-language specification.

The Go source is shallowly embedded: pure string-processing helpers from the
Go standard library (strings.TrimSpace, strings.HasSuffix, strings.TrimSuffix,
strings.Contains, strings.Fields, strconv.ParseFloat, strconv.ParseUint,
strconv.Atoi) are modelled as executable Lean functions over List Char, and
the repository's functions (parseMemoryValue, parsePowerValue, the inline
utilization/temperature parsing of getGPUInfoFromNvidiaSmi, the aggregator's
node-status updates, the poller's tick barrier, and the second variant's
process-ranking handler) are translated on top of them.

Modelling conventions:
- A parsed float64 is modelled as the exact decimal it denotes, kept as a
  numerator together with a power-of-ten scale (structure Dec below).
  strconv.ParseFloat is modelled on the plain decimal fragment (digits,
  optionally a point with digits on both sides) that the diagnostic tool
  emits; exponent forms, bare points, signs, hex floats and inf/nan are
  outside the modelled fragment.  The multiplications the source performs on
  the parsed value and the subsequent uint64 conversion are exact in float64
  on every input the claims quantify over (whole-valued and dyadic decimals),
  so exact decimal arithmetic coincides with float64 arithmetic there.
- The Go conversion uint64(f) of a nonnegative float truncates toward zero;
  it is modelled as floor division, faithful for 0 <= f < 2^64, the range of
  every value considered here.
- time.Now is modelled as an abstract Nat timestamp supplied by the caller.
-/

namespace GPUMon

/-- Whitespace characters recognised by the modelled fragment of Go's
strings.TrimSpace and strings.Fields (the ASCII whitespace the tool emits). -/
def isSpaceChar (c : Char) : Bool :=
  c == ' ' || c == '\t' || c == '\n' || c == '\r'

/-- Model of Go strings.TrimSpace on a character list: drop leading and
trailing whitespace. -/
def goTrimSpaceL (cs : List Char) : List Char :=
  ((cs.dropWhile isSpaceChar).reverse.dropWhile isSpaceChar).reverse

/-- Model of Go strings.HasSuffix on character lists. -/
def goHasSuffixL (cs sfx : List Char) : Bool :=
  sfx.isSuffixOf cs

/-- Model of Go strings.TrimSuffix on character lists: remove one trailing
occurrence of the suffix if present, otherwise return the list unchanged. -/
def goTrimSuffixL (cs sfx : List Char) : List Char :=
  if goHasSuffixL cs sfx then cs.take (cs.length - sfx.length) else cs

/-- Model of Go strings.Contains on character lists. -/
def goContainsL (cs sub : List Char) : Bool :=
  decide (sub <:+: cs)

/-- Numeric value of a decimal digit list (most significant first). -/
def natOfDigits (cs : List Char) : ℕ :=
  cs.foldl (fun a c => 10 * a + (c.toNat - 48)) 0

/-- All characters are decimal digits. -/
def allDigits (cs : List Char) : Bool :=
  cs.all Char.isDigit

/-- Exact value of a parsed float64: the rational num / 10 ^ den10.  Every
decimal literal the modelled ParseFloat fragment accepts is represented
exactly in this form. -/
structure Dec where
  num : ℕ
  den10 : ℕ
  deriving DecidableEq

/-- Rational value denoted by a Dec. -/
def Dec.toRat (d : Dec) : ℚ :=
  (d.num : ℚ) / (10 : ℚ) ^ d.den10

/-- Multiplication of a parsed float by a natural constant, as the source
does with the unit factors 1024 and 1000; exact in float64 for the inputs
the claims quantify over. -/
def Dec.mulNat (d : Dec) (m : ℕ) : Dec :=
  ⟨d.num * m, d.den10⟩

/-- Model of the Go conversion uint64(f) for a nonnegative float64 value f:
truncation toward zero, i.e. floor division of the exact decimal. -/
def goUint64 (d : Dec) : ℕ :=
  d.num / 10 ^ d.den10

/-- Model of Go strconv.ParseFloat (64-bit) on the plain decimal fragment:
a nonempty digit run, optionally followed by a point and a nonempty digit
run, parses to the exact decimal it denotes; everything else is a parse
error (none). -/
def goParseFloatL (cs : List Char) : Option Dec :=
  let ip := cs.takeWhile (fun c => c ≠ '.')
  match cs.dropWhile (fun c => c ≠ '.') with
  | [] =>
      if ip ≠ [] ∧ allDigits ip then some ⟨natOfDigits ip, 0⟩ else none
  | _ :: fp =>
      if ip ≠ [] ∧ fp ≠ [] ∧ allDigits ip ∧ allDigits fp then
        some ⟨natOfDigits ip * 10 ^ fp.length + natOfDigits fp, fp.length⟩
      else none

/-- String wrapper for goTrimSpaceL. -/
def goTrimSpace (s : String) : String :=
  ⟨goTrimSpaceL s.data⟩

/-- String wrapper for goHasSuffixL. -/
def goHasSuffix (s sfx : String) : Bool :=
  goHasSuffixL s.data sfx.data

/-- String wrapper for goTrimSuffixL. -/
def goTrimSuffix (s sfx : String) : String :=
  ⟨goTrimSuffixL s.data sfx.data⟩

/-- String wrapper for goContainsL. -/
def goContains (s sub : String) : Bool :=
  goContainsL s.data sub.data

/-- ParseFloat with the error discarded, as the source writes
num, _ := strconv.ParseFloat(...): a parse error yields the value 0 that Go
returns alongside the error. -/
def goParseFloatD (s : String) : Dec :=
  (goParseFloatL s.data).getD ⟨0, 0⟩

/-- Embeds parseMemoryValue (src/main.go, first variant): trims space, then
tries the suffixes MiB, GiB, KiB in order (each branch trims the suffix
together with one leading space before parsing the number), then a bare B
suffix provided the string does not contain iB (that branch trims only the
B), and otherwise returns 0. -/
def parseMemoryValue (value : String) : ℕ :=
  let v := goTrimSpace value
  if goHasSuffix v "MiB" then
    goUint64 (((goParseFloatD (goTrimSuffix v " MiB")).mulNat 1024).mulNat 1024)
  else if goHasSuffix v "GiB" then
    goUint64 ((((goParseFloatD (goTrimSuffix v " GiB")).mulNat 1024).mulNat 1024).mulNat 1024)
  else if goHasSuffix v "KiB" then
    goUint64 ((goParseFloatD (goTrimSuffix v " KiB")).mulNat 1024)
  else if goHasSuffix v "B" && !goContains v "iB" then
    goUint64 (goParseFloatD (goTrimSuffix v "B"))
  else 0

/-- Embeds parsePowerValue (src/main.go, first variant): trims space; a W
suffix converts the number (with the suffix and one leading space trimmed)
to milliwatts; the literals N/A and the empty string give 0; a bare number is
treated as watts; anything else gives 0. -/
def parsePowerValue (value : String) : ℕ :=
  let v := goTrimSpace value
  if goHasSuffix v "W" then
    goUint64 ((goParseFloatD (goTrimSuffix v " W")).mulNat 1000)
  else if v = "N/A" ∨ v = "" then 0
  else
    match goParseFloatL v.data with
    | some num => goUint64 (num.mulNat 1000)
    | none => 0

/-- Embeds the inline utilization parsing of getGPUInfoFromNvidiaSmi
(src/main.go lines 294-299): a " %" suffix is trimmed and the rest parsed as
a float (0 on parse error); any other shape yields 0.  The parsed float is
kept exactly (as a Dec); downstream it is the telemetry record's utilization
value. -/
def parseUtilizationDec (s : String) : Dec :=
  if goHasSuffix s " %" then goParseFloatD (goTrimSuffix s " %") else ⟨0, 0⟩

/-- Utilization as the rational value of the parsed float. -/
def parseUtilization (s : String) : ℚ :=
  (parseUtilizationDec s).toRat

/-- Model of Go strconv.ParseUint(s, 10, 32) with the error discarded and the
result converted to uint32, as the inline temperature parsing does: a nonempty
digit string yields its value (capped at 2^32-1, the value Go returns together
with a range error); anything else yields 0. -/
def goParseUint32D (s : String) : ℕ :=
  if s.data ≠ [] ∧ allDigits s.data then min (natOfDigits s.data) (2 ^ 32 - 1)
  else 0

/-- Embeds the inline temperature parsing of getGPUInfoFromNvidiaSmi
(src/main.go lines 305-311): a " C" suffix is trimmed and the rest parsed as
an unsigned integer; any other shape yields 0. -/
def parseTemperature (s : String) : ℕ :=
  if goHasSuffix s " C" then goParseUint32D (goTrimSuffix s " C") else 0

/-- Nonempty all-digit character list: the shape of the whole-number
magnitudes the claims quantify over. -/
def DigitStr (ds : List Char) : Prop :=
  ds ≠ [] ∧ allDigits ds = true

instance (ds : List Char) : Decidable (DigitStr ds) := by
  unfold DigitStr; infer_instance

/-- Process node of the nvidia-smi XML as unmarshalled by the first variant
(struct Process: pid, process_name, used_memory, all strings). -/
structure ProcessX where
  pid : String
  processName : String
  usedMemory : String
  deriving DecidableEq

/-- GPU device node of the nvidia-smi XML as unmarshalled by the first
variant (struct GPU with its nested Memory/Util/Temp/Power/Processes
sub-structs flattened to their string leaves). -/
structure GPUX where
  id : String
  productName : String
  memTotal : String
  memUsed : String
  utilGpu : String
  gpuTemp : String
  powerDraw : String
  powerLimit : String
  processes : List ProcessX
  deriving DecidableEq

/-- Normalized per-process telemetry (struct ProcessInfo of the first
variant). -/
structure ProcessInfo where
  pid : ℕ
  name : String
  used : ℕ
  deriving DecidableEq

/-- Normalized per-device telemetry (struct GPUInfo of the first variant).
Utilization is the float64 field, modelled as its exact rational value. -/
structure GPUInfo where
  id : String
  name : String
  utilization : ℚ
  memoryUsed : ℕ
  memoryTotal : ℕ
  temperature : ℕ
  powerUsage : ℕ
  powerLimit : ℕ
  processes : List ProcessInfo
  deriving DecidableEq

/-- Embeds the per-process conversion inside getGPUInfoFromNvidiaSmi's loop:
parse the used memory with the zero-fallback normalizer and the PID with
ParseUint (error discarded). -/
def convertProcess (p : ProcessX) : ProcessInfo :=
  { pid := goParseUint32D p.pid
    name := p.processName
    used := parseMemoryValue p.usedMemory }

/-- Embeds the per-device conversion of getGPUInfoFromNvidiaSmi (src/main.go
lines 293-341): each string leaf goes through its normalizer independently;
nothing checks memory-used against memory-total. -/
def convertGPU (g : GPUX) : GPUInfo :=
  { id := g.id
    name := g.productName
    utilization := parseUtilization g.utilGpu
    memoryUsed := parseMemoryValue g.memUsed
    memoryTotal := parseMemoryValue g.memTotal
    temperature := parseTemperature g.gpuTemp
    powerUsage := parsePowerValue g.powerDraw
    powerLimit := parsePowerValue g.powerLimit
    processes := g.processes.map convertProcess }

/-- Embeds the conversion stage of getGPUInfoFromNvidiaSmi: the source
allocates a slice of the same length as the device list and fills index i
from device i, i.e. a map in device-enumeration order. -/
def smiToGPUInfos (gpus : List GPUX) : List GPUInfo :=
  gpus.map convertGPU

/-- Embeds getGPUInfoFromNvidiaSmi around the conversion: a failed tool run
or a failed XML unmarshal (the Except argument models that outcome) is
returned as an error; a successful unmarshal — with however many device
nodes, including zero — is converted and returned without error. -/
def getGPUInfoFromNvidiaSmi (raw : Except String (List GPUX)) :
    Except String (List GPUInfo) :=
  match raw with
  | .error e => .error e
  | .ok gpus => .ok (smiToGPUInfos gpus)

/-- A device node whose reported used memory exceeds its reported total;
both fields are well-formed magnitudes. -/
def gpuxUsedExceeds : GPUX :=
  { id := "00000000:01:00.0"
    productName := "Demo"
    memTotal := "1 MiB"
    memUsed := "2 MiB"
    utilGpu := "0 %"
    gpuTemp := "30 C"
    powerDraw := "N/A"
    powerLimit := "N/A"
    processes := [] }

/-- A device node reporting used 1 MiB of total 3 MiB, written with explicit
digit lists so the amended C5 theorem applies definitionally. -/
def gpuxOrdered : GPUX :=
  { gpuxUsedExceeds with
      memUsed := ⟨['1'] ++ [' ', 'M', 'i', 'B']⟩
      memTotal := ⟨['3'] ++ [' ', 'M', 'i', 'B']⟩ }

/-- Node configuration (struct NodeConfig of the first variant). -/
structure NodeConfig where
  name : String
  host : String
  port : ℕ
  displayAlias : String
  deriving DecidableEq

/-- Host telemetry snapshot (struct NodeInfo): node name, capture timestamp
(modelled as an abstract Nat), ordered GPU list. -/
structure NodeInfo where
  nodeName : String
  timestamp : ℕ
  gpus : List GPUInfo
  deriving DecidableEq

/-- Registry record (struct NodeStatus): embedded config, last-update time,
liveness string, optional telemetry (none models the nil pointer), error
string. -/
structure NodeStatus where
  config : NodeConfig
  lastUpdate : ℕ
  status : String
  data : Option NodeInfo
  error : String
  deriving DecidableEq

/-- Embeds the registry initialization of runAggregator (src/main.go lines
192-198): every configured host starts with Status "unknown" and the Go zero
values for the remaining fields (zero time, nil Data, empty Error). -/
def initNodeStatus (c : NodeConfig) : NodeStatus :=
  { config := c, lastUpdate := 0, status := "unknown", data := none, error := "" }

/-- Outcome of one fetch attempt against a host, as classified by
updateNodeStatus (src/main.go lines 438-479): request-creation failure,
transport failure, non-200 status, decode failure, or a decoded body. -/
inductive FetchOutcome where
  | reqError (detail : String)
  | connError (detail : String)
  | httpError (code : ℕ)
  | decodeError (detail : String)
  | success (info : NodeInfo)
  deriving DecidableEq

/-- Whether the outcome is the success branch. -/
def FetchOutcome.isSuccess : FetchOutcome → Bool
  | .success _ => true
  | _ => false

/-- Embeds the body of updateNodeError (src/main.go lines 481-490) on one
record: offline status, fresh timestamp, Data cleared to nil, Error set. -/
def updateNodeError (now : ℕ) (msg : String) (s : NodeStatus) : NodeStatus :=
  { s with status := "offline", lastUpdate := now, data := none, error := msg }

/-- Embeds the success branch of updateNodeStatus (src/main.go lines
470-478): online status, fresh timestamp, Data replaced, Error cleared. -/
def updateNodeOnline (now : ℕ) (info : NodeInfo) (s : NodeStatus) : NodeStatus :=
  { s with status := "online", lastUpdate := now, data := some info, error := "" }

/-- One fetch outcome applied to a host's record, with the exact message
each failure branch of updateNodeStatus formats before calling
updateNodeError. -/
def applyFetch (now : ℕ) (o : FetchOutcome) (s : NodeStatus) : NodeStatus :=
  match o with
  | .reqError d => updateNodeError now ("Failed to create request: " ++ d) s
  | .connError d => updateNodeError now ("Failed to connect: " ++ d) s
  | .httpError c => updateNodeError now ("HTTP error: " ++ toString c) s
  | .decodeError d => updateNodeError now ("Failed to parse response: " ++ d) s
  | .success info => updateNodeOnline now info s

/-- A host record over a sequence of timestamped fetch outcomes, starting
from the initial registry record. -/
def runFetches (c : NodeConfig) (events : List (ℕ × FetchOutcome)) : NodeStatus :=
  events.foldl (fun s e => applyFetch e.1 e.2 s) (initNodeStatus c)

/-- The three admissible record shapes of claim C1: unknown with neither
telemetry nor error, online with telemetry and empty error, offline with
cleared telemetry and a nonempty error — never a partial mix. -/
def statusInv (s : NodeStatus) : Prop :=
  (s.status = "unknown" ∧ s.data = none ∧ s.error = "") ∨
  (s.status = "online" ∧ s.data ≠ none ∧ s.error = "") ∨
  (s.status = "offline" ∧ s.data = none ∧ s.error ≠ "")

/-- A concrete host configuration for witnesses. -/
def demoConfig : NodeConfig :=
  { name := "node1", host := "10.0.0.1", port := 8081, displayAlias := "gpu-1" }

/-- The aggregator's registry, the map of host name to record (Aggregator
nodes field).  A Go pointer into the map is modelled by its key: the key set
is fixed at startup and records are mutated in place, so a *NodeStatus is a
stable identity and dereferencing it reads the record currently stored under
its key. -/
abbrev Registry := List (String × NodeStatus)

/-- Embeds a Poller write (the mutex-guarded body of updateNodeStatus or
updateNodeError): the record the name points to is mutated in place when
present. -/
def registryWrite (name : String) (f : NodeStatus → NodeStatus) (reg : Registry) : Registry :=
  reg.map (fun kv => if kv.1 = name then (kv.1, f kv.2) else kv)

/-- Embeds the snapshot loop of nodesHandler (src/main.go lines 493-498):
under the read lock it appends the record pointers to a fresh slice — it
copies the pointers (modelled as the keys), not the records. -/
def nodesHandlerSnapshot (reg : Registry) : List String :=
  reg.map Prod.fst

/-- Embeds the serialization step of nodesHandler (line 501): after RUnlock,
json.Encode dereferences each snapshotted pointer against the registry as it
is at encoding time. -/
def renderSnapshot (snap : List String) (reg : Registry) : List (Option NodeStatus) :=
  snap.map (fun n => reg.lookup n)

/-- Modelled from the spec: the GetAll the specification describes — a
defensive copy of the record values taken while the read lock is held, so
that later writes cannot affect the serialized output. -/
def getAllCopy (reg : Registry) : List NodeStatus :=
  reg.map Prod.snd

/-- The registry right after startup with the single demo host. -/
def demoRegistry : Registry := [("node1", initNodeStatus demoConfig)]

/-- State of the poller loop: the current tick index, the fetches of the
current tick not yet resolved, and the chronological log of registry
updates as (tick, host) pairs. -/
structure PollState where
  tick : ℕ
  pending : List String
  log : List (ℕ × String)

/-- Embeds the poller's control flow (pollNodes and updateNodeStatuses,
src/main.go lines 414-436).  resolve: a per-host goroutine of the current
tick finishes — with success, failure, or timeout — in any order, writing its
registry update and calling wg.Done.  nextTick: only when no fetch of the
current tick is pending (the wg.Wait barrier, followed by the ticker
receive) does the loop start the next tick, relaunching one fetch per
configured host. -/
inductive PollStep (allNodes : List String) : PollState → PollState → Prop
  | resolve (t : ℕ) (pending : List String) (log : List (ℕ × String))
      (name : String) (h : name ∈ pending) :
      PollStep allNodes ⟨t, pending, log⟩ ⟨t, pending.erase name, log ++ [(t, name)]⟩
  | nextTick (t : ℕ) (log : List (ℕ × String)) :
      PollStep allNodes ⟨t, [], log⟩ ⟨t + 1, allNodes, log⟩

/-- Initial poller state: pollNodes runs updateNodeStatuses immediately, so
tick 0 starts with every configured host pending and nothing logged. -/
def pollInit (allNodes : List String) : PollState := ⟨0, allNodes, []⟩

/-- States the poller loop can reach. -/
def PollReachable (allNodes : List String) (s : PollState) : Prop :=
  Relation.ReflTransGen (PollStep allNodes) (pollInit allNodes) s

/-- Inductive invariant of the poller loop: the log is tick-monotone, every
logged tick is at most the current one, all ticks before the current one are
fully logged for every configured host, and each host of the current tick is
either still pending or already logged. -/
def PollInv (allNodes : List String) (s : PollState) : Prop :=
  s.log.Pairwise (fun a b => a.1 ≤ b.1) ∧
  (∀ e ∈ s.log, e.1 ≤ s.tick) ∧
  (∀ n ∈ allNodes, ∀ t, t < s.tick → (t, n) ∈ s.log) ∧
  (∀ n ∈ allNodes, n ∈ s.pending ∨ (s.tick, n) ∈ s.log)

/-- A concrete reachable poller state: tick 0's single fetch resolved, then
the barrier passed and tick 1 launched. -/
def pollDemoState : PollState := ⟨1, ["a"], [(0, "a")]⟩

/-- Process node of the second program variant (struct Process: pid,
process_name, used_memory from the XML, plus the JSON-only username field
filled by enrichment). -/
structure ProcessV2 where
  pid : String
  processName : String
  usedMemory : String
  username : String
  deriving DecidableEq

/-- Model of Go strings.Fields on a character list: the maximal runs of
non-whitespace characters. -/
def goFieldsL (cs : List Char) : List (List Char) :=
  (List.splitOnP isSpaceChar cs).filter (fun f => f ≠ [])

/-- Model of Go strconv.Atoi with the error discarded, as the comparator
writes memK, _ := strconv.Atoi(...): an optional sign followed by digits
parses to its value, anything else yields 0.  (Overflow, which also errors
in Go, is not modelled; no claim involves 19-digit magnitudes.) -/
def goAtoiD (cs : List Char) : ℤ :=
  match cs with
  | '-' :: ds => if ds ≠ [] ∧ allDigits ds = true then -(natOfDigits ds : ℤ) else 0
  | '+' :: ds => if ds ≠ [] ∧ allDigits ds = true then (natOfDigits ds : ℤ) else 0
  | ds => if ds ≠ [] ∧ allDigits ds = true then (natOfDigits ds : ℤ) else 0

/-- The comparator's key for one process: strings.Fields(used_memory)[0] fed
to Atoi.  none models the index-out-of-range panic when the string has no
fields (empty or whitespace-only). -/
def usedMemKey (p : ProcessV2) : Option ℤ :=
  (goFieldsL p.usedMemory.data).head?.map goAtoiD

/-- The key with the panic case defaulted to 0; meaningful only where every
key is defined. -/
def usedMemKeyD (p : ProcessV2) : ℤ :=
  (usedMemKey p).getD 0

/-- Enrichment step: proc.Username = getUsernameFromPid(proc.Pid), the
external lookup collaborator passed in as a function. -/
def setUser (look : String → String) (p : ProcessV2) : ProcessV2 :=
  { p with username := look p.pid }

/-- Embeds the truncation: gpu.Processes = gpu.Processes[:2] when more than
two processes remain, otherwise unchanged. -/
def truncTop2 (ps : List ProcessV2) : List ProcessV2 :=
  if 2 < ps.length then ps.take 2 else ps

/-- Contract of Go sort.Slice with the handler's comparator (descending by
used-memory key): some permutation of the input that is pairwise
non-increasing on keys.  sort.Slice is documented as not guaranteed stable,
so the outcome is specified only up to this relation. -/
def sortSliceOutcome (input output : List ProcessV2) : Prop :=
  input.Perm output ∧ output.Pairwise (fun a b => usedMemKeyD b ≤ usedMemKeyD a)

/-- The second variant's per-device process ranking (gpuInfoHandler,
src/main.go lines 592-608), relationally: enrich usernames, sort by parsed
used-memory descending (any sort.Slice-conformant order), truncate to at
most 2. -/
def rankOutcome (look : String → String) (input output : List ProcessV2) : Prop :=
  ∃ mid, sortSliceOutcome (input.map (setUser look)) mid ∧ output = truncTop2 mid

/-- Two processes reporting the same used memory, distinguished by PID. -/
def procTie1 : ProcessV2 := ⟨"1", "python", "100 MiB", ""⟩

/-- Second process of the tie, reported after procTie1. -/
def procTie2 : ProcessV2 := ⟨"2", "java", "100 MiB", ""⟩

/-- The demo owner-lookup collaborator (a PID whose owner is unavailable
yields the sentinel). -/
def demoLookup : String → String := fun _ => "N/A"

/-- First process of the spec's ranking example (500 MiB). -/
def procM500 : ProcessV2 := ⟨"1", "procA", "500 MiB", ""⟩

/-- Second process of the spec's ranking example (3000 MiB). -/
def procM3000 : ProcessV2 := ⟨"2", "procB", "3000 MiB", ""⟩

/-- Third process of the spec's ranking example (1000 MiB). -/
def procM1000 : ProcessV2 := ⟨"3", "procC", "1000 MiB", ""⟩

/-- Default element for modelled slice indexing; the sort only indexes in
range, so the default is never read. -/
def procDefault : ProcessV2 := ⟨"", "", "", ""⟩

/-- Swap of two slice positions, as data.Swap performs it. -/
def swapL (l : List ProcessV2) (i j : ℕ) : List ProcessV2 :=
  (l.set i (l.getD j procDefault)).set j (l.getD i procDefault)

/-- The handler's comparator less(k, j) (src/main.go lines 599-603): index
the first whitespace-separated field of each process's used_memory — none
models the index-out-of-range panic of strings.Fields(...)[0] when the
string has no fields — and compare the Atoi values with greater-than.  Both
fields are extracted before the comparison, exactly as the Go code evaluates
memK and memL before returning. -/
def cmpUsedMem (l : List ProcessV2) (k j : ℕ) : Option Bool :=
  match (goFieldsL (l.getD k procDefault).usedMemory.data).head?,
      (goFieldsL (l.getD j procDefault).usedMemory.data).head? with
  | some fk, some fj => some (goAtoiD fj < goAtoiD fk)
  | _, _ => none

/-- The inner loop of Go's insertion sort (for j := i; j > a && less(j, j-1);
j--: swap(j, j-1)), with a comparator panic propagated as none. -/
def insertInner (less : List ProcessV2 → ℕ → ℕ → Option Bool) :
    ℕ → List ProcessV2 → Option (List ProcessV2)
  | 0, l => some l
  | j + 1, l =>
      match less l (j + 1) j with
      | none => none
      | some true => insertInner less j (swapL l (j + 1) j)
      | some false => some l

/-- The outer loop of Go's insertion sort (for i := a+1; i < b; i++), fueled
by the number of remaining iterations. -/
def insertionSortGo (less : List ProcessV2 → ℕ → ℕ → Option Bool) :
    ℕ → ℕ → List ProcessV2 → Option (List ProcessV2)
  | 0, _, l => some l
  | fuel + 1, i, l =>
      match insertInner less i l with
      | none => none
      | some l2 => insertionSortGo less fuel (i + 1) l2

/-- The code path Go's sort.Slice takes for slices of length at most 12
(pdqsort delegates such slices to insertion sort): the deterministic
execution of the handler's sort on short process lists, with the
comparator's partiality explicit. -/
def sortSliceShort (less : List ProcessV2 → ℕ → ℕ → Option Bool)
    (l : List ProcessV2) : Option (List ProcessV2) :=
  insertionSortGo less (l.length - 1) 1 l

/-- The enrichment handler's per-device body on the short-list
implementation path: set usernames, sort (propagating a comparator panic as
none), truncate to at most two. -/
def rankShort (look : String → String) (ps : List ProcessV2) :
    Option (List ProcessV2) :=
  (sortSliceShort cmpUsedMem (ps.map (setUser look))).map truncTop2

/-- A process whose used_memory field is empty. -/
def procBadMem : ProcessV2 := ⟨"2", "python", "", ""⟩

/-- A process whose used_memory field is whitespace-only. -/
def procBadMemWs : ProcessV2 := ⟨"3", "stress", " ", ""⟩

/-- A process with a well-formed used_memory field. -/
def procGoodMem : ProcessV2 := ⟨"1", "java", "512 MiB", ""⟩

/-- A decimal digit differs from any non-digit character. -/
theorem ne_of_isDigit {c d : Char} (hc : c.isDigit = true) (hd : d.isDigit = false) :
    c ≠ d := by
  intro e
  rw [e, hd] at hc
  exact Bool.noConfusion hc

/-- Digits are not whitespace. -/
theorem isSpaceChar_of_isDigit {c : Char} (hc : c.isDigit = true) :
    isSpaceChar c = false := by
  have h1 : c ≠ ' ' := ne_of_isDigit hc (by decide)
  have h2 : c ≠ '\t' := ne_of_isDigit hc (by decide)
  have h3 : c ≠ '\n' := ne_of_isDigit hc (by decide)
  have h4 : c ≠ '\r' := ne_of_isDigit hc (by decide)
  simp only [isSpaceChar, Bool.or_eq_false_iff, beq_eq_false_iff_ne, ne_eq]
  exact ⟨⟨⟨h1, h2⟩, h3⟩, h4⟩

/-- Members of an all-digit list are digits. -/
theorem isDigit_of_mem {ds : List Char} {c : Char} (h : allDigits ds = true)
    (hc : c ∈ ds) : c.isDigit = true :=
  List.all_eq_true.mp h c hc

/-- A non-digit character outside the suffix does not occur in a digit list
followed by that suffix. -/
theorem not_mem_append_digits {ds sfx : List Char} {a : Char}
    (hd : allDigits ds = true) (ha : a.isDigit = false) (hs : a ∉ sfx) :
    a ∉ ds ++ sfx := by
  intro h
  rcases List.mem_append.mp h with h | h
  · have := isDigit_of_mem hd h
    rw [ha] at this
    exact Bool.noConfusion this
  · exact hs h

/-- A list is not a suffix of a list missing one of its characters. -/
theorem not_suffix_of_mem_not_mem {s l : List Char} {a : Char}
    (ha : a ∈ s) (hl : a ∉ l) : ¬ s <:+ l :=
  fun h => hl (h.sublist.subset ha)

/-- A list is not an infix of a list missing one of its characters. -/
theorem not_infix_of_mem_not_mem {s l : List Char} {a : Char}
    (ha : a ∈ s) (hl : a ∉ l) : ¬ s <:+: l :=
  fun h => hl (h.sublist.subset ha)

/-- TrimSpace is the identity when the first and last characters are not
whitespace. -/
theorem goTrimSpaceL_eq_self {l : List Char}
    (h1 : ∀ c, l.head? = some c → isSpaceChar c = false)
    (h2 : ∀ c, l.getLast? = some c → isSpaceChar c = false) :
    goTrimSpaceL l = l := by
  unfold goTrimSpaceL
  have hfront : l.dropWhile isSpaceChar = l := by
    cases l with
    | nil => rfl
    | cons c t =>
        rw [List.dropWhile_cons, if_neg]
        simp [h1 c rfl]
  rw [hfront]
  have hback : l.reverse.dropWhile isSpaceChar = l.reverse := by
    cases hrev : l.reverse with
    | nil => rfl
    | cons c t =>
        have hc : l.getLast? = some c := by
          rw [← List.head?_reverse, hrev]
          rfl
        rw [List.dropWhile_cons, if_neg]
        simp [h2 c hc]
  rw [hback, List.reverse_reverse]

/-- HasSuffix holds on an appended copy of the suffix. -/
theorem goHasSuffixL_append (xs sfx : List Char) :
    goHasSuffixL (xs ++ sfx) sfx = true := by
  simp [goHasSuffixL]

/-- HasSuffix fails when the candidate suffix has a character the list
does not. -/
theorem goHasSuffixL_eq_false (a : Char) {l sfx : List Char}
    (ha : a ∈ sfx) (hl : a ∉ l) : goHasSuffixL l sfx = false := by
  simp only [goHasSuffixL, Bool.eq_false_iff, ne_eq, List.isSuffixOf_iff_suffix]
  exact not_suffix_of_mem_not_mem ha hl

/-- TrimSuffix removes an appended copy of the suffix. -/
theorem goTrimSuffixL_append (xs sfx : List Char) :
    goTrimSuffixL (xs ++ sfx) sfx = xs := by
  simp only [goTrimSuffixL, goHasSuffixL_append, if_true]
  rw [List.length_append, Nat.add_sub_cancel]
  exact List.take_left xs sfx

/-- Contains fails when the candidate has a character the list does not. -/
theorem goContainsL_eq_false (a : Char) {l sub : List Char}
    (ha : a ∈ sub) (hl : a ∉ l) : goContainsL l sub = false := by
  simp only [goContainsL, decide_eq_false_iff_not]
  exact not_infix_of_mem_not_mem ha hl

/-- The modelled ParseFloat accepts a nonempty digit run and returns its
whole-number value. -/
theorem goParseFloatL_digits {ds : List Char} (hne : ds ≠ [])
    (hd : allDigits ds = true) :
    goParseFloatL ds = some ⟨natOfDigits ds, 0⟩ := by
  have hp : ∀ c ∈ ds, c ≠ '.' :=
    fun c hc => ne_of_isDigit (isDigit_of_mem hd hc) (by decide)
  have h1 : ds.takeWhile (fun c => decide (c ≠ '.')) = ds :=
    List.takeWhile_eq_self_iff.mpr (by simpa using hp)
  have h2 : ds.dropWhile (fun c => decide (c ≠ '.')) = [] :=
    List.dropWhile_eq_nil_iff.mpr (by simpa using hp)
  simp only [goParseFloatL, h1, h2, ne_eq, hne, not_false_eq_true, hd, and_self, if_true]

/-- TrimSpace is the identity on a digit run followed by a suffix whose last
character is not whitespace. -/
theorem goTrimSpaceL_digits_append (b : Char) {ds sfx : List Char} (hne : ds ≠ [])
    (hd : allDigits ds = true) (hb : sfx.getLast? = some b)
    (hbs : isSpaceChar b = false) :
    goTrimSpaceL (ds ++ sfx) = ds ++ sfx := by
  apply goTrimSpaceL_eq_self
  · intro c hc
    cases ds with
    | nil => exact absurd rfl hne
    | cons a t =>
        simp only [List.cons_append, List.head?_cons, Option.some.injEq] at hc
        rw [← hc]
        exact isSpaceChar_of_isDigit (isDigit_of_mem hd (List.mem_cons_self a t))
  · intro c hc
    rw [List.getLast?_append, hb] at hc
    simp only [Option.or_some, Option.some.injEq] at hc
    rw [← hc]
    exact hbs

/-- TrimSpace is the identity on an all-digit run. -/
theorem goTrimSpaceL_digits {ds : List Char}
    (hd : allDigits ds = true) :
    goTrimSpaceL ds = ds := by
  apply goTrimSpaceL_eq_self
  · intro c hc
    exact isSpaceChar_of_isDigit
      (isDigit_of_mem hd (List.mem_of_mem_head? hc))
  · intro c hc
    exact isSpaceChar_of_isDigit
      (isDigit_of_mem hd (List.mem_of_getLast?_eq_some hc))

/-- Reduction of the String wrapper to the character-list level. -/
@[simp] theorem strData_mk (l : List Char) : (⟨l⟩ : String).data = l := rfl

/-- ParseFloat rejects a digit run followed by a space (the residue the B and
W branches of the source produce from a spaced magnitude). -/
theorem goParseFloatL_digits_space {ds : List Char} (hd : allDigits ds = true) :
    goParseFloatL (ds ++ [' ']) = none := by
  have hp : ∀ c ∈ ds ++ [' '], c ≠ '.' := by
    intro c hc
    rcases List.mem_append.mp hc with h | h
    · exact ne_of_isDigit (isDigit_of_mem hd h) (by decide)
    · simp only [List.mem_singleton] at h
      rw [h]
      decide
  have h1 : (ds ++ [' ']).takeWhile (fun c => decide (c ≠ '.')) = ds ++ [' '] :=
    List.takeWhile_eq_self_iff.mpr (by simpa using hp)
  have h2 : (ds ++ [' ']).dropWhile (fun c => decide (c ≠ '.')) = [] :=
    List.dropWhile_eq_nil_iff.mpr (by simpa using hp)
  have hnd : allDigits (ds ++ [' ']) = false := by
    simp [allDigits]
  simp only [goParseFloatL, h1, h2, hnd, ne_eq, Bool.false_eq_true, and_false, if_false]

/-- The MiB branch of parseMemoryValue on a whole-number magnitude. -/
theorem parseMemoryValue_MiB {ds : List Char} (hne : ds ≠ [])
    (hd : allDigits ds = true) :
    parseMemoryValue ⟨ds ++ [' ', 'M', 'i', 'B']⟩ = natOfDigits ds * 1024 * 1024 := by
  have htrim : goTrimSpace ⟨ds ++ [' ', 'M', 'i', 'B']⟩ = ⟨ds ++ [' ', 'M', 'i', 'B']⟩ := by
    simp only [goTrimSpace, strData_mk]
    rw [goTrimSpaceL_digits_append ('B') hne hd (by decide) (by decide)]
  have hM : goHasSuffix ⟨ds ++ [' ', 'M', 'i', 'B']⟩ "MiB" = true := by
    simp only [goHasSuffix, strData_mk]
    rw [show ds ++ [' ', 'M', 'i', 'B'] = (ds ++ [' ']) ++ ['M', 'i', 'B'] by simp]
    exact goHasSuffixL_append _ _
  have hts : goTrimSuffix ⟨ds ++ [' ', 'M', 'i', 'B']⟩ " MiB" = ⟨ds⟩ := by
    simp only [goTrimSuffix, strData_mk]
    rw [goTrimSuffixL_append]
  have hparse : goParseFloatD ⟨ds⟩ = ⟨natOfDigits ds, 0⟩ := by
    simp only [goParseFloatD, strData_mk]
    rw [goParseFloatL_digits hne hd]
    rfl
  simp only [parseMemoryValue, htrim, hM, hts, hparse, if_true]
  simp [Dec.mulNat, goUint64, Nat.mul_assoc]

/-- The GiB branch of parseMemoryValue on a whole-number magnitude. -/
theorem parseMemoryValue_GiB {ds : List Char} (hne : ds ≠ [])
    (hd : allDigits ds = true) :
    parseMemoryValue ⟨ds ++ [' ', 'G', 'i', 'B']⟩ = natOfDigits ds * 1024 * 1024 * 1024 := by
  have htrim : goTrimSpace ⟨ds ++ [' ', 'G', 'i', 'B']⟩ = ⟨ds ++ [' ', 'G', 'i', 'B']⟩ := by
    simp only [goTrimSpace, strData_mk]
    rw [goTrimSpaceL_digits_append ('B') hne hd (by decide) (by decide)]
  have hM : goHasSuffix ⟨ds ++ [' ', 'G', 'i', 'B']⟩ "MiB" = false := by
    simp only [goHasSuffix, strData_mk]
    exact goHasSuffixL_eq_false ('M') (by decide)
      (not_mem_append_digits hd (by decide) (by decide))
  have hG : goHasSuffix ⟨ds ++ [' ', 'G', 'i', 'B']⟩ "GiB" = true := by
    simp only [goHasSuffix, strData_mk]
    rw [show ds ++ [' ', 'G', 'i', 'B'] = (ds ++ [' ']) ++ ['G', 'i', 'B'] by simp]
    exact goHasSuffixL_append _ _
  have hts : goTrimSuffix ⟨ds ++ [' ', 'G', 'i', 'B']⟩ " GiB" = ⟨ds⟩ := by
    simp only [goTrimSuffix, strData_mk]
    rw [goTrimSuffixL_append]
  have hparse : goParseFloatD ⟨ds⟩ = ⟨natOfDigits ds, 0⟩ := by
    simp only [goParseFloatD, strData_mk]
    rw [goParseFloatL_digits hne hd]
    rfl
  simp only [parseMemoryValue, htrim, hM, hG, hts, hparse, Bool.false_eq_true, if_false, if_true]
  simp [Dec.mulNat, goUint64, Nat.mul_assoc]

/-- The KiB branch of parseMemoryValue on a whole-number magnitude. -/
theorem parseMemoryValue_KiB {ds : List Char} (hne : ds ≠ [])
    (hd : allDigits ds = true) :
    parseMemoryValue ⟨ds ++ [' ', 'K', 'i', 'B']⟩ = natOfDigits ds * 1024 := by
  have htrim : goTrimSpace ⟨ds ++ [' ', 'K', 'i', 'B']⟩ = ⟨ds ++ [' ', 'K', 'i', 'B']⟩ := by
    simp only [goTrimSpace, strData_mk]
    rw [goTrimSpaceL_digits_append ('B') hne hd (by decide) (by decide)]
  have hM : goHasSuffix ⟨ds ++ [' ', 'K', 'i', 'B']⟩ "MiB" = false := by
    simp only [goHasSuffix, strData_mk]
    exact goHasSuffixL_eq_false ('M') (by decide)
      (not_mem_append_digits hd (by decide) (by decide))
  have hG : goHasSuffix ⟨ds ++ [' ', 'K', 'i', 'B']⟩ "GiB" = false := by
    simp only [goHasSuffix, strData_mk]
    exact goHasSuffixL_eq_false ('G') (by decide)
      (not_mem_append_digits hd (by decide) (by decide))
  have hK : goHasSuffix ⟨ds ++ [' ', 'K', 'i', 'B']⟩ "KiB" = true := by
    simp only [goHasSuffix, strData_mk]
    rw [show ds ++ [' ', 'K', 'i', 'B'] = (ds ++ [' ']) ++ ['K', 'i', 'B'] by simp]
    exact goHasSuffixL_append _ _
  have hts : goTrimSuffix ⟨ds ++ [' ', 'K', 'i', 'B']⟩ " KiB" = ⟨ds⟩ := by
    simp only [goTrimSuffix, strData_mk]
    rw [goTrimSuffixL_append]
  have hparse : goParseFloatD ⟨ds⟩ = ⟨natOfDigits ds, 0⟩ := by
    simp only [goParseFloatD, strData_mk]
    rw [goParseFloatL_digits hne hd]
    rfl
  simp only [parseMemoryValue, htrim, hM, hG, hK, hts, hparse, Bool.false_eq_true, if_false, if_true]
  simp [Dec.mulNat, goUint64]

/-- A non-digit character does not occur in an all-digit list. -/
theorem not_mem_digits {ds : List Char} {a : Char}
    (hd : allDigits ds = true) (ha : a.isDigit = false) : a ∉ ds := by
  intro h
  have := isDigit_of_mem hd h
  rw [ha] at this
  exact Bool.noConfusion this

/-- The bare-B branch of parseMemoryValue: a number directly followed by B
(no space) is returned as raw bytes. -/
theorem parseMemoryValue_bareB {ds : List Char} (hne : ds ≠ [])
    (hd : allDigits ds = true) :
    parseMemoryValue ⟨ds ++ ['B']⟩ = natOfDigits ds := by
  have htrim : goTrimSpace ⟨ds ++ ['B']⟩ = ⟨ds ++ ['B']⟩ := by
    simp only [goTrimSpace, strData_mk]
    rw [goTrimSpaceL_digits_append ('B') hne hd (by decide) (by decide)]
  have hM : goHasSuffix ⟨ds ++ ['B']⟩ "MiB" = false := by
    simp only [goHasSuffix, strData_mk]
    exact goHasSuffixL_eq_false ('i') (by decide)
      (not_mem_append_digits hd (by decide) (by decide))
  have hG : goHasSuffix ⟨ds ++ ['B']⟩ "GiB" = false := by
    simp only [goHasSuffix, strData_mk]
    exact goHasSuffixL_eq_false ('i') (by decide)
      (not_mem_append_digits hd (by decide) (by decide))
  have hK : goHasSuffix ⟨ds ++ ['B']⟩ "KiB" = false := by
    simp only [goHasSuffix, strData_mk]
    exact goHasSuffixL_eq_false ('i') (by decide)
      (not_mem_append_digits hd (by decide) (by decide))
  have hB : goHasSuffix ⟨ds ++ ['B']⟩ "B" = true := by
    simp only [goHasSuffix, strData_mk]
    exact goHasSuffixL_append _ _
  have hiB : goContains ⟨ds ++ ['B']⟩ "iB" = false := by
    simp only [goContains, strData_mk]
    exact goContainsL_eq_false ('i') (by decide)
      (not_mem_append_digits hd (by decide) (by decide))
  have hts : goTrimSuffix ⟨ds ++ ['B']⟩ "B" = ⟨ds⟩ := by
    simp only [goTrimSuffix, strData_mk]
    rw [goTrimSuffixL_append]
  have hparse : goParseFloatD ⟨ds⟩ = ⟨natOfDigits ds, 0⟩ := by
    simp only [goParseFloatD, strData_mk]
    rw [goParseFloatL_digits hne hd]
    rfl
  simp only [parseMemoryValue, htrim, hM, hG, hK, hB, hiB, hts, hparse,
    Bool.false_eq_true, if_false, Bool.not_false, Bool.and_true, if_true]
  simp [goUint64]

/-- The spaced-B input: parseMemoryValue trims only the final B, leaving a
trailing space that fails the numeric parse, so the result is 0. -/
theorem parseMemoryValue_spacedB {ds : List Char} (hne : ds ≠ [])
    (hd : allDigits ds = true) :
    parseMemoryValue ⟨ds ++ [' ', 'B']⟩ = 0 := by
  have htrim : goTrimSpace ⟨ds ++ [' ', 'B']⟩ = ⟨ds ++ [' ', 'B']⟩ := by
    simp only [goTrimSpace, strData_mk]
    rw [goTrimSpaceL_digits_append ('B') hne hd (by decide) (by decide)]
  have hM : goHasSuffix ⟨ds ++ [' ', 'B']⟩ "MiB" = false := by
    simp only [goHasSuffix, strData_mk]
    exact goHasSuffixL_eq_false ('i') (by decide)
      (not_mem_append_digits hd (by decide) (by decide))
  have hG : goHasSuffix ⟨ds ++ [' ', 'B']⟩ "GiB" = false := by
    simp only [goHasSuffix, strData_mk]
    exact goHasSuffixL_eq_false ('i') (by decide)
      (not_mem_append_digits hd (by decide) (by decide))
  have hK : goHasSuffix ⟨ds ++ [' ', 'B']⟩ "KiB" = false := by
    simp only [goHasSuffix, strData_mk]
    exact goHasSuffixL_eq_false ('i') (by decide)
      (not_mem_append_digits hd (by decide) (by decide))
  have hB : goHasSuffix ⟨ds ++ [' ', 'B']⟩ "B" = true := by
    simp only [goHasSuffix, strData_mk]
    rw [show ds ++ [' ', 'B'] = (ds ++ [' ']) ++ ['B'] by simp]
    exact goHasSuffixL_append _ _
  have hiB : goContains ⟨ds ++ [' ', 'B']⟩ "iB" = false := by
    simp only [goContains, strData_mk]
    exact goContainsL_eq_false ('i') (by decide)
      (not_mem_append_digits hd (by decide) (by decide))
  have hts : goTrimSuffix ⟨ds ++ [' ', 'B']⟩ "B" = ⟨ds ++ [' ']⟩ := by
    simp only [goTrimSuffix, strData_mk]
    rw [show ds ++ [' ', 'B'] = (ds ++ [' ']) ++ ['B'] by simp, goTrimSuffixL_append]
  have hparse : goParseFloatD ⟨ds ++ [' ']⟩ = ⟨0, 0⟩ := by
    simp only [goParseFloatD, strData_mk]
    rw [goParseFloatL_digits_space hd]
    rfl
  simp only [parseMemoryValue, htrim, hM, hG, hK, hB, hiB, hts, hparse,
    Bool.false_eq_true, if_false, Bool.not_false, Bool.and_true, if_true]
  simp [goUint64]

/-- The W branch of parsePowerValue on a spaced whole-number wattage. -/
theorem parsePowerValue_W {ds : List Char} (hne : ds ≠ [])
    (hd : allDigits ds = true) :
    parsePowerValue ⟨ds ++ [' ', 'W']⟩ = natOfDigits ds * 1000 := by
  have htrim : goTrimSpace ⟨ds ++ [' ', 'W']⟩ = ⟨ds ++ [' ', 'W']⟩ := by
    simp only [goTrimSpace, strData_mk]
    rw [goTrimSpaceL_digits_append ('W') hne hd (by decide) (by decide)]
  have hW : goHasSuffix ⟨ds ++ [' ', 'W']⟩ "W" = true := by
    simp only [goHasSuffix, strData_mk]
    rw [show ds ++ [' ', 'W'] = (ds ++ [' ']) ++ ['W'] by simp]
    exact goHasSuffixL_append _ _
  have hts : goTrimSuffix ⟨ds ++ [' ', 'W']⟩ " W" = ⟨ds⟩ := by
    simp only [goTrimSuffix, strData_mk]
    rw [goTrimSuffixL_append]
  have hparse : goParseFloatD ⟨ds⟩ = ⟨natOfDigits ds, 0⟩ := by
    simp only [goParseFloatD, strData_mk]
    rw [goParseFloatL_digits hne hd]
    rfl
  simp only [parsePowerValue, htrim, hW, hts, hparse, if_true]
  simp [Dec.mulNat, goUint64]

/-- A bare whole number is treated by parsePowerValue as watts. -/
theorem parsePowerValue_bare {ds : List Char} (hne : ds ≠ [])
    (hd : allDigits ds = true) :
    parsePowerValue ⟨ds⟩ = natOfDigits ds * 1000 := by
  have htrim : goTrimSpace ⟨ds⟩ = ⟨ds⟩ := by
    simp only [goTrimSpace, strData_mk]
    rw [goTrimSpaceL_digits hd]
  have hW : goHasSuffix ⟨ds⟩ "W" = false := by
    simp only [goHasSuffix, strData_mk]
    exact goHasSuffixL_eq_false ('W') (by decide) (not_mem_digits hd (by decide))
  have hNA : ¬((⟨ds⟩ : String) = "N/A" ∨ (⟨ds⟩ : String) = "") := by
    rintro (h | h)
    · have hds : ds = ['N', '/', 'A'] := congrArg String.data h
      have : ('N' : Char) ∈ ds := by
        rw [hds]
        decide
      exact not_mem_digits hd (by decide) this
    · exact hne (congrArg String.data h)
  have hparse : goParseFloatL ds = some ⟨natOfDigits ds, 0⟩ :=
    goParseFloatL_digits hne hd
  simp only [parsePowerValue, htrim, hW, Bool.false_eq_true, if_false, if_neg hNA,
    strData_mk, hparse]
  simp [Dec.mulNat, goUint64]

/-- The percent branch of the inline utilization parsing on a spaced
whole-number percentage. -/
theorem parseUtilizationDec_digits {ds : List Char} (hne : ds ≠ [])
    (hd : allDigits ds = true) :
    parseUtilizationDec ⟨ds ++ [' ', '%']⟩ = ⟨natOfDigits ds, 0⟩ := by
  have hP : goHasSuffix ⟨ds ++ [' ', '%']⟩ " %" = true := by
    simp only [goHasSuffix, strData_mk]
    exact goHasSuffixL_append _ _
  have hts : goTrimSuffix ⟨ds ++ [' ', '%']⟩ " %" = ⟨ds⟩ := by
    simp only [goTrimSuffix, strData_mk]
    rw [goTrimSuffixL_append]
  have hparse : goParseFloatD ⟨ds⟩ = ⟨natOfDigits ds, 0⟩ := by
    simp only [goParseFloatD, strData_mk]
    rw [goParseFloatL_digits hne hd]
    rfl
  simp only [parseUtilizationDec, hP, hts, hparse, if_true]

/-- The whole-number rational value of a parsed digit run. -/
theorem parseUtilization_digits {ds : List Char} (hne : ds ≠ [])
    (hd : allDigits ds = true) :
    parseUtilization ⟨ds ++ [' ', '%']⟩ = (natOfDigits ds : ℚ) := by
  rw [parseUtilization, parseUtilizationDec_digits hne hd]
  simp [Dec.toRat]

/-- parseMemoryValue falls through to 0 when no unit branch fires. -/
theorem parseMemoryValue_no_suffix (v : String)
    (hM : goHasSuffix (goTrimSpace v) "MiB" = false)
    (hG : goHasSuffix (goTrimSpace v) "GiB" = false)
    (hK : goHasSuffix (goTrimSpace v) "KiB" = false)
    (hB : (goHasSuffix (goTrimSpace v) "B" && !goContains (goTrimSpace v) "iB") = false) :
    parseMemoryValue v = 0 := by
  simp only [parseMemoryValue, hM, hG, hK, hB, Bool.false_eq_true, if_false]

/-- C2 counterexample: the claim says every string of the form
number-space-unit with unit B yields the number as raw bytes, but the source
trims only the bare B, leaving a trailing space that fails strconv.ParseFloat,
so the spaced form "100 B" normalizes to 0, not 100. -/
theorem claim_C2_counterexample :
    parseMemoryValue "100 B" = 0 ∧ parseMemoryValue "100 B" ≠ 100 := by
  decide

/-- C2 (amended): for every whole number n, spaced KiB/MiB/GiB magnitudes
normalize to n*1024, n*1024^2, n*1024^3 bytes ("1024 MiB" and "1 GiB" both
give 1073741824); a number directly followed by B (no space) gives the raw
byte count, while the spaced form with unit B gives 0 because only the bare B
is trimmed and the residual trailing space fails the numeric parse; any input
matching none of the unit branches, and any suffixed input whose number part
is malformed, normalizes to 0 and never errors. -/
theorem claim_C2_amended :
    (∀ ds : List Char, DigitStr ds →
      parseMemoryValue ⟨ds ++ [' ', 'K', 'i', 'B']⟩ = natOfDigits ds * 1024 ∧
      parseMemoryValue ⟨ds ++ [' ', 'M', 'i', 'B']⟩ = natOfDigits ds * 1024 * 1024 ∧
      parseMemoryValue ⟨ds ++ [' ', 'G', 'i', 'B']⟩ = natOfDigits ds * 1024 * 1024 * 1024 ∧
      parseMemoryValue ⟨ds ++ ['B']⟩ = natOfDigits ds ∧
      parseMemoryValue ⟨ds ++ [' ', 'B']⟩ = 0) ∧
    parseMemoryValue "1024 MiB" = 1073741824 ∧
    parseMemoryValue "1 GiB" = 1073741824 ∧
    (∀ v : String,
      goHasSuffix (goTrimSpace v) "MiB" = false →
      goHasSuffix (goTrimSpace v) "GiB" = false →
      goHasSuffix (goTrimSpace v) "KiB" = false →
      (goHasSuffix (goTrimSpace v) "B" && !goContains (goTrimSpace v) "iB") = false →
      parseMemoryValue v = 0) ∧
    parseMemoryValue "abc MiB" = 0 ∧
    parseMemoryValue "" = 0 ∧
    parseMemoryValue "garbage" = 0 := by
  refine ⟨?_, by decide, by decide, parseMemoryValue_no_suffix, by decide, by decide, by decide⟩
  intro ds h
  obtain ⟨hne, hd⟩ := h
  exact ⟨parseMemoryValue_KiB hne hd, parseMemoryValue_MiB hne hd,
    parseMemoryValue_GiB hne hd, parseMemoryValue_bareB hne hd,
    parseMemoryValue_spacedB hne hd⟩

/-- Witness for C2 (amended) at the concrete magnitude "20 KiB". -/
theorem claim_C2_witness :
    parseMemoryValue ⟨['2', '0'] ++ [' ', 'K', 'i', 'B']⟩ = natOfDigits ['2', '0'] * 1024 :=
  (claim_C2_amended.1 ['2', '0'] (by decide)).1

/-- C6 counterexample: the claim says every parsed percentage lies in
[0,100], but the source does not clamp: the well-formed input "150 %"
normalizes to 150, outside [0,100]. -/
theorem claim_C6_counterexample :
    parseUtilization "150 %" = 150 ∧ ¬(parseUtilization "150 %" ≤ 100) := by
  have h : parseUtilizationDec "150 %" = ⟨150, 0⟩ := by decide
  constructor
  · rw [parseUtilization, h]
    simp [Dec.toRat]
  · rw [parseUtilization, h]
    simp only [Dec.toRat]
    norm_num

/-- C6 (amended): a string of the form number-space-percent normalizes to
exactly the reported number, unclamped — nonnegative always, and within
[0,100] precisely when the reported number is at most 100; a string without
the percent suffix normalizes to 0. -/
theorem claim_C6_amended :
    (∀ ds : List Char, DigitStr ds →
      parseUtilization ⟨ds ++ [' ', '%']⟩ = (natOfDigits ds : ℚ) ∧
      0 ≤ parseUtilization ⟨ds ++ [' ', '%']⟩ ∧
      (parseUtilization ⟨ds ++ [' ', '%']⟩ ≤ 100 ↔ natOfDigits ds ≤ 100)) ∧
    (∀ s : String, goHasSuffix s " %" = false → parseUtilization s = 0) := by
  constructor
  · intro ds h
    obtain ⟨hne, hd⟩ := h
    have hv := parseUtilization_digits hne hd
    refine ⟨hv, ?_, ?_⟩
    · rw [hv]
      exact_mod_cast Nat.zero_le _
    · rw [hv]
      exact_mod_cast Iff.rfl
  · intro s hs
    simp [parseUtilization, parseUtilizationDec, hs, Dec.toRat]

/-- Witness for C6 (amended) at the concrete utilization "42 %". -/
theorem claim_C6_witness :
    parseUtilization ⟨['4', '2'] ++ [' ', '%']⟩ = (natOfDigits ['4', '2'] : ℚ) :=
  (claim_C6_amended.1 ['4', '2'] (by decide)).1

/-- C8: power strings of the form number-space-W normalize to milliwatts
(number times 1000; "250.00 W" gives 250000); the literal "N/A" and the
empty string give 0; a bare number is treated as watts and multiplied by
1000; malformed input gives 0 and never an error.  (The whole-number
quantification covers the fragment on which float64 arithmetic is exact.) -/
theorem claim_C8 :
    (∀ ds : List Char, DigitStr ds →
      parsePowerValue ⟨ds ++ [' ', 'W']⟩ = natOfDigits ds * 1000 ∧
      parsePowerValue ⟨ds⟩ = natOfDigits ds * 1000) ∧
    parsePowerValue "250.00 W" = 250000 ∧
    parsePowerValue "N/A" = 0 ∧
    parsePowerValue "" = 0 ∧
    parsePowerValue "abc" = 0 ∧
    parsePowerValue "12.3.4 W" = 0 := by
  refine ⟨?_, by decide, by decide, by decide, by decide, by decide⟩
  intro ds h
  obtain ⟨hne, hd⟩ := h
  exact ⟨parsePowerValue_W hne hd, parsePowerValue_bare hne hd⟩

/-- Witness for C8 at the concrete wattage "250 W". -/
theorem claim_C8_witness :
    parsePowerValue ⟨['2', '5', '0'] ++ [' ', 'W']⟩ = natOfDigits ['2', '5', '0'] * 1000 :=
  (claim_C8.1 ['2', '5', '0'] (by decide)).1

/-- C9: for every successfully parsed tool output the parser emits exactly
one telemetry record per device node (same length), the record at every
index comes from the device node at the same index (no re-sorting), and an
input with zero device nodes yields the empty sequence without an error. -/
theorem claim_C9 :
    (∀ gpus : List GPUX, (smiToGPUInfos gpus).length = gpus.length) ∧
    (∀ gpus : List GPUX, ∀ i : ℕ,
      (smiToGPUInfos gpus)[i]? = (gpus[i]?).map convertGPU) ∧
    getGPUInfoFromNvidiaSmi (.ok []) = .ok [] ∧
    (∀ gpus : List GPUX, getGPUInfoFromNvidiaSmi (.ok gpus) = .ok (smiToGPUInfos gpus)) := by
  refine ⟨?_, ?_, rfl, fun _ => rfl⟩
  · intro gpus
    simp [smiToGPUInfos]
  · intro gpus i
    simp [smiToGPUInfos, List.getElem?_map]

/-- C5 counterexample: the conversion copies used and total through the
normalizer independently, so a tool report with used 2 MiB and total 1 MiB
(both parseable, nonzero) produces a record with memory-used greater than
memory-total. -/
theorem claim_C5_counterexample :
    (convertGPU gpuxUsedExceeds).memoryUsed = 2097152 ∧
    (convertGPU gpuxUsedExceeds).memoryTotal = 1048576 ∧
    ¬((convertGPU gpuxUsedExceeds).memoryUsed ≤ (convertGPU gpuxUsedExceeds).memoryTotal) := by
  refine ⟨by decide, by decide, by decide⟩

/-- C5 (amended): the code does not enforce memory-used <= memory-total; the
inequality holds in the produced record precisely as inherited from the
reported magnitudes (in particular for same-unit whole-number reports with
used <= total), and an unparseable magnitude field normalizes to zero while
the record is still produced rather than failing. -/
theorem claim_C5_amended :
    (∀ g : GPUX, ∀ du dt : List Char, DigitStr du → DigitStr dt →
      g.memUsed = ⟨du ++ [' ', 'M', 'i', 'B']⟩ →
      g.memTotal = ⟨dt ++ [' ', 'M', 'i', 'B']⟩ →
      natOfDigits du ≤ natOfDigits dt →
      (convertGPU g).memoryUsed ≤ (convertGPU g).memoryTotal) ∧
    (∀ g : GPUX,
      goHasSuffix (goTrimSpace g.memUsed) "MiB" = false →
      goHasSuffix (goTrimSpace g.memUsed) "GiB" = false →
      goHasSuffix (goTrimSpace g.memUsed) "KiB" = false →
      (goHasSuffix (goTrimSpace g.memUsed) "B" && !goContains (goTrimSpace g.memUsed) "iB") = false →
      (convertGPU g).memoryUsed = 0 ∧
      getGPUInfoFromNvidiaSmi (.ok [g]) = .ok [convertGPU g]) := by
  constructor
  · intro g du dt hdu hdt hu ht hle
    show parseMemoryValue g.memUsed ≤ parseMemoryValue g.memTotal
    rw [hu, ht, parseMemoryValue_MiB hdu.1 hdu.2, parseMemoryValue_MiB hdt.1 hdt.2]
    exact Nat.mul_le_mul_right _ (Nat.mul_le_mul_right _ hle)
  · intro g h1 h2 h3 h4
    refine ⟨?_, rfl⟩
    show parseMemoryValue g.memUsed = 0
    exact parseMemoryValue_no_suffix _ h1 h2 h3 h4

/-- Witness for C5 (amended): the 1 MiB of 3 MiB report satisfies the
memory invariant. -/
theorem claim_C5_witness :
    (convertGPU gpuxOrdered).memoryUsed ≤ (convertGPU gpuxOrdered).memoryTotal :=
  claim_C5_amended.1 _ ['1'] ['3'] (by decide) (by decide) rfl rfl (by decide)

/-- A string with a nonempty prefix is nonempty. -/
theorem prefixed_ne_empty (p d : String) (hp : p.data ≠ []) : p ++ d ≠ "" := by
  intro h
  have hd : (p ++ d).data = [] := by
    exact congrArg String.data h
  rw [String.data_append] at hd
  exact hp (List.append_eq_nil.mp hd).1

/-- Every fetch outcome leaves the record in an admissible shape, whatever
state it was in before. -/
theorem applyFetch_statusInv (now : ℕ) (o : FetchOutcome) (s : NodeStatus) :
    statusInv (applyFetch now o s) := by
  cases o with
  | success info =>
      right
      left
      exact ⟨rfl, by simp [applyFetch, updateNodeOnline], rfl⟩
  | reqError d =>
      right
      right
      exact ⟨rfl, rfl, prefixed_ne_empty _ d (by decide)⟩
  | connError d =>
      right
      right
      exact ⟨rfl, rfl, prefixed_ne_empty _ d (by decide)⟩
  | httpError c =>
      right
      right
      exact ⟨rfl, rfl, prefixed_ne_empty _ (toString c) (by decide)⟩
  | decodeError d =>
      right
      right
      exact ⟨rfl, rfl, prefixed_ne_empty _ d (by decide)⟩

/-- C1: a host record starts unknown with no telemetry and no error; a
successful fetch makes it online with the decoded telemetry and an empty
error; every failed fetch makes it offline with telemetry cleared and a
nonempty error; and along any sequence of fetches from startup the record is
always in exactly one of the three admissible shapes (status, telemetry and
error always replaced together, never a partial mix). -/
theorem claim_C1 :
    (∀ c : NodeConfig, (initNodeStatus c).status = "unknown" ∧
      (initNodeStatus c).data = none ∧ (initNodeStatus c).error = "") ∧
    (∀ (now : ℕ) (info : NodeInfo) (s : NodeStatus),
      (applyFetch now (.success info) s).status = "online" ∧
      (applyFetch now (.success info) s).data = some info ∧
      (applyFetch now (.success info) s).error = "") ∧
    (∀ (now : ℕ) (o : FetchOutcome) (s : NodeStatus), o.isSuccess = false →
      (applyFetch now o s).status = "offline" ∧
      (applyFetch now o s).data = none ∧
      (applyFetch now o s).error ≠ "") ∧
    (∀ (c : NodeConfig) (events : List (ℕ × FetchOutcome)),
      statusInv (runFetches c events)) := by
  refine ⟨fun c => ⟨rfl, rfl, rfl⟩, fun now info s => ⟨rfl, rfl, rfl⟩, ?_, ?_⟩
  · intro now o s ho
    cases o with
    | success info => simp [FetchOutcome.isSuccess] at ho
    | reqError d => exact ⟨rfl, rfl, prefixed_ne_empty _ d (by decide)⟩
    | connError d => exact ⟨rfl, rfl, prefixed_ne_empty _ d (by decide)⟩
    | httpError c => exact ⟨rfl, rfl, prefixed_ne_empty _ (toString c) (by decide)⟩
    | decodeError d => exact ⟨rfl, rfl, prefixed_ne_empty _ d (by decide)⟩
  · intro c events
    rw [runFetches]
    have h : ∀ (evs : List (ℕ × FetchOutcome)) (s : NodeStatus), statusInv s →
        statusInv (evs.foldl (fun s e => applyFetch e.1 e.2 s) s) := by
      intro evs
      induction evs with
      | nil => exact fun s hs => hs
      | cons e t ih =>
          intro s _
          exact ih (applyFetch e.1 e.2 s) (applyFetch_statusInv e.1 e.2 s)
    exact h events (initNodeStatus c) (Or.inl ⟨rfl, rfl, rfl⟩)

/-- Witness for C1: a connection failure at time 5 puts the initial record
offline with cleared telemetry and a nonempty error. -/
theorem claim_C1_witness :
    (applyFetch 5 (.connError "connection refused") (initNodeStatus demoConfig)).status = "offline" ∧
    (applyFetch 5 (.connError "connection refused") (initNodeStatus demoConfig)).data = none ∧
    (applyFetch 5 (.connError "connection refused") (initNodeStatus demoConfig)).error ≠ "" :=
  claim_C1.2.2.1 5 (.connError "connection refused") (initNodeStatus demoConfig) (by decide)

/-- C4 (code-bug demonstration): nodesHandler snapshots pointers, not record
values, and serializes after releasing the read lock.  With no intervening
write the output matches the defensive copy, but a Poller write that lands
between snapshot and serialization is visible in (and races) the serialized
output, which the claimed defensive copy would have made impossible. -/
theorem claim_C4_live_view :
    renderSnapshot (nodesHandlerSnapshot demoRegistry) demoRegistry =
      (getAllCopy demoRegistry).map some ∧
    renderSnapshot (nodesHandlerSnapshot demoRegistry)
        (registryWrite "node1"
          (updateNodeError 7 "Failed to connect: connection refused") demoRegistry) ≠
      (getAllCopy demoRegistry).map some := by
  decide

/-- The poller invariant holds in every reachable state. -/
theorem pollInv_reachable (allNodes : List String) (s : PollState)
    (h : PollReachable allNodes s) : PollInv allNodes s := by
  induction h with
  | refl =>
      refine ⟨List.Pairwise.nil, ?_, ?_, ?_⟩
      · intro e he
        exact absurd he (List.not_mem_nil e)
      · intro n _ t ht
        exact absurd ht (Nat.not_lt_zero t)
      · intro n hn
        exact Or.inl hn
  | tail _ hstep ih =>
      obtain ⟨hmono, hle, hdone, hcur⟩ := ih
      cases hstep with
      | resolve t pending log name hmem =>
          refine ⟨?_, ?_, ?_, ?_⟩
          · rw [List.pairwise_append]
            exact ⟨hmono, List.pairwise_singleton _ _,
              fun a ha b hb => by
                simp only [List.mem_singleton] at hb
                rw [hb]
                exact hle a ha⟩
          · intro e he
            rcases List.mem_append.mp he with h | h
            · exact hle e h
            · simp only [List.mem_singleton] at h
              rw [h]
          · intro n hn t' ht'
            exact List.mem_append_left _ (hdone n hn t' ht')
          · intro n hn
            rcases hcur n hn with hp | hl
            · by_cases hne : n = name
              · right
                rw [hne]
                exact List.mem_append_right _ (List.mem_singleton_self _)
              · left
                exact List.mem_erase_of_ne hne |>.mpr hp
            · right
              exact List.mem_append_left _ hl
      | nextTick t log =>
          refine ⟨hmono, ?_, ?_, ?_⟩
          · intro e he
            exact Nat.le_succ_of_le (hle e he)
          · intro n hn t' ht'
            rcases Nat.lt_succ_iff_lt_or_eq.mp ht' with h | h
            · exact hdone n hn t' h
            · rcases hcur n hn with hp | hl
              · exact absurd hp (List.not_mem_nil n)
              · rw [h]
                exact hl
          · intro n hn
            exact Or.inl hn

/-- C7: in every reachable poller state the update log is tick-monotone and
every tick before the current one is fully resolved for every configured
host; consequently an update of tick t+1 can appear in the log only after
every update of tick t — the next tick's timer wait does not begin until all
fetches of the current tick have resolved, and no two ticks' updates
(for the same host or any host) ever interleave. -/
theorem claim_C7 (allNodes : List String) (s : PollState)
    (h : PollReachable allNodes s) :
    s.log.Pairwise (fun a b => a.1 ≤ b.1) ∧
    (∀ n ∈ allNodes, ∀ t, t < s.tick → (t, n) ∈ s.log) ∧
    (∀ l₁ l₂ t t' n n', s.log = l₁ ++ (t', n') :: l₂ → t < t' → n ∈ allNodes →
      (t, n) ∈ l₁) := by
  obtain ⟨hmono, hle, hdone, _⟩ := pollInv_reachable allNodes s h
  refine ⟨hmono, hdone, ?_⟩
  intro l₁ l₂ t t' n n' hsplit hlt hn
  have htick : t' ≤ s.tick := by
    refine hle (t', n') ?_
    rw [hsplit]
    exact List.mem_append_right _ (List.mem_cons_self _ _)
  have hmem : (t, n) ∈ s.log := hdone n hn t (Nat.lt_of_lt_of_le hlt htick)
  rw [hsplit] at hmem hmono
  rcases List.mem_append.mp hmem with h1 | h1
  · exact h1
  · exfalso
    rw [List.pairwise_append] at hmono
    obtain ⟨_, hcons, _⟩ := hmono
    rcases List.mem_cons.mp h1 with h2 | h2
    · rw [Prod.ext_iff] at h2
      have ht : t = t' := h2.1
      rw [ht] at hlt
      exact Nat.lt_irrefl t' hlt
    · have := (List.pairwise_cons.mp hcons).1 (t, n) h2
      exact Nat.not_lt.mpr this hlt

/-- Witness for C7 at a one-host configuration after one full tick. -/
theorem claim_C7_witness :
    pollDemoState.log.Pairwise (fun a b => a.1 ≤ b.1) ∧
    (∀ n ∈ ["a"], ∀ t, t < pollDemoState.tick → (t, n) ∈ pollDemoState.log) ∧
    (∀ l₁ l₂ t t' n n', pollDemoState.log = l₁ ++ (t', n') :: l₂ → t < t' →
      n ∈ ["a"] → (t, n) ∈ l₁) :=
  claim_C7 ["a"] pollDemoState (by
    have h1 : PollStep ["a"] (pollInit ["a"]) ⟨0, [], [(0, "a")]⟩ := by
      have h : PollStep ["a"] ⟨0, ["a"], []⟩ ⟨0, ["a"].erase "a", [] ++ [(0, "a")]⟩ :=
        PollStep.resolve 0 ["a"] [] "a" (List.mem_singleton_self "a")
      simpa using h
    have h2 : PollStep ["a"] ⟨0, [], [(0, "a")]⟩ pollDemoState :=
      PollStep.nextTick 0 [(0, "a")]
    exact Relation.ReflTransGen.tail (Relation.ReflTransGen.single h1) h2)

/-- A permutation of a list with pairwise-distinct keys that is sorted by
the same non-increasing key order is the list itself. -/
theorem sorted_perm_eq_of_nodup_keys (l₁ : List ProcessV2) :
    ∀ l₂ : List ProcessV2, l₁.Perm l₂ →
    l₁.Pairwise (fun a b => usedMemKeyD b ≤ usedMemKeyD a) →
    l₂.Pairwise (fun a b => usedMemKeyD b ≤ usedMemKeyD a) →
    (l₁.map usedMemKeyD).Nodup → l₁ = l₂ := by
  induction l₁ with
  | nil =>
      intro l₂ hp _ _ _
      exact hp.nil_eq
  | cons a t ih =>
      intro l₂ hp h1 h2 hnd
      cases l₂ with
      | nil =>
          have := hp.symm.nil_eq
          exact absurd this (by simp)
      | cons b t₂ =>
          have hab : a = b := by
            by_contra hne
            have hbmem : b ∈ a :: t := hp.symm.subset (List.mem_cons_self b t₂)
            have hamem : a ∈ b :: t₂ := hp.subset (List.mem_cons_self a t)
            have hbt : b ∈ t := by
              rcases List.mem_cons.mp hbmem with h | h
              · exact absurd h.symm hne
              · exact h
            have hat2 : a ∈ t₂ := by
              rcases List.mem_cons.mp hamem with h | h
              · exact absurd h hne
              · exact h
            have hba : usedMemKeyD b ≤ usedMemKeyD a := (List.pairwise_cons.mp h1).1 b hbt
            have hab2 : usedMemKeyD a ≤ usedMemKeyD b := (List.pairwise_cons.mp h2).1 a hat2
            have heq : usedMemKeyD b = usedMemKeyD a := le_antisymm hba hab2
            have hmem : usedMemKeyD a ∈ t.map usedMemKeyD := by
              rw [← heq]
              exact List.mem_map_of_mem usedMemKeyD hbt
            have hnd' := List.nodup_cons.mp hnd
            exact hnd'.1 hmem
          subst hab
          have ht : t.Perm t₂ := hp.cons_inv
          have hnd' := List.nodup_cons.mp hnd
          have := ih t₂ ht (List.pairwise_cons.mp h1).2 (List.pairwise_cons.mp h2).2 hnd'.2
          rw [this]

/-- C3 counterexample: the code sorts with sort.Slice, which does not
guarantee stability, so for two processes with equal used memory the
swapped order is a conformant outcome; the claim's requirement that
equal-memory processes keep their original relative order therefore does
not hold of every outcome the code may produce. -/
theorem claim_C3_counterexample :
    usedMemKeyD (setUser demoLookup procTie1) = usedMemKeyD (setUser demoLookup procTie2) ∧
    rankOutcome demoLookup [procTie1, procTie2]
      [setUser demoLookup procTie2, setUser demoLookup procTie1] ∧
    ¬ (∀ out, rankOutcome demoLookup [procTie1, procTie2] out →
        out = [setUser demoLookup procTie1, setUser demoLookup procTie2]) := by
  have hswap : rankOutcome demoLookup [procTie1, procTie2]
      [setUser demoLookup procTie2, setUser demoLookup procTie1] := by
    refine ⟨[setUser demoLookup procTie2, setUser demoLookup procTie1],
      ⟨?_, by decide⟩, by decide⟩
    exact List.Perm.swap _ _ _
  refine ⟨by decide, hswap, ?_⟩
  intro hall
  have h := hall _ hswap
  exact absurd h (by decide)

/-- C3 (amended): every sort.Slice-conformant outcome of the enrichment
handler is sorted by used-memory descending, has length min(input length, 2)
after truncation, and consists of enriched input processes; on the spec's
distinct-key example [500, 3000, 1000] the outcome is uniquely determined to
be [3000, 1000].  Only the claimed tie order is weakened: sort.Slice leaves
the order of equal-memory processes unspecified. -/
theorem claim_C3_amended :
    (∀ (look : String → String) (input output : List ProcessV2),
      rankOutcome look input output →
      output.Pairwise (fun a b => usedMemKeyD b ≤ usedMemKeyD a) ∧
      output.length = min input.length 2 ∧
      ∀ p ∈ output, p ∈ input.map (setUser look)) ∧
    (∀ output, rankOutcome demoLookup [procM500, procM3000, procM1000] output →
      output = [setUser demoLookup procM3000, setUser demoLookup procM1000]) := by
  constructor
  · intro look input output hrank
    obtain ⟨mid, ⟨hperm, hsort⟩, hout⟩ := hrank
    have hlen : input.length = mid.length := by
      have := hperm.length_eq
      simpa using this
    refine ⟨?_, ?_, ?_⟩
    · rw [hout]
      unfold truncTop2
      by_cases h : 2 < mid.length
      · rw [if_pos h]
        exact List.Pairwise.sublist (List.take_sublist 2 mid) hsort
      · rw [if_neg h]
        exact hsort
    · rw [hout]
      unfold truncTop2
      by_cases h : 2 < mid.length
      · rw [if_pos h]
        rw [List.length_take]
        omega
      · rw [if_neg h]
        omega
    · intro p hp
      have hpmid : p ∈ mid := by
        rw [hout] at hp
        unfold truncTop2 at hp
        by_cases h : 2 < mid.length
        · rw [if_pos h] at hp
          exact List.take_subset 2 mid hp
        · rw [if_neg h] at hp
          exact hp
      exact hperm.symm.subset hpmid
  · intro output hrank
    obtain ⟨mid, ⟨hperm, hsort⟩, hout⟩ := hrank
    have hE : ([setUser demoLookup procM3000, setUser demoLookup procM1000,
        setUser demoLookup procM500] : List ProcessV2).Perm
        ([procM500, procM3000, procM1000].map (setUser demoLookup)) := by decide
    have hpE := hE.trans hperm
    have heq := sorted_perm_eq_of_nodup_keys _ mid hpE (by decide) hsort (by decide)
    rw [← heq] at hout
    rw [hout]
    decide

/-- Witness for C3 (amended) at the spec's [500, 3000, 1000] example. -/
theorem claim_C3_witness :
    ([setUser demoLookup procM3000, setUser demoLookup procM1000] : List ProcessV2).Pairwise
      (fun a b => usedMemKeyD b ≤ usedMemKeyD a) ∧
    ([setUser demoLookup procM3000, setUser demoLookup procM1000] : List ProcessV2).length =
      min ([procM500, procM3000, procM1000] : List ProcessV2).length 2 ∧
    (∀ p ∈ ([setUser demoLookup procM3000, setUser demoLookup procM1000] : List ProcessV2),
      p ∈ ([procM500, procM3000, procM1000] : List ProcessV2).map (setUser demoLookup)) :=
  claim_C3_amended.1 demoLookup [procM500, procM3000, procM1000]
    [setUser demoLookup procM3000, setUser demoLookup procM1000]
    ⟨[setUser demoLookup procM3000, setUser demoLookup procM1000,
      setUser demoLookup procM500], ⟨by decide, by decide⟩, by decide⟩

/-- C10: strings.Fields of an empty or whitespace-only used_memory string
has no fields, so the comparator's [0] index is out of range; on a device
with two processes one of which reports such a field, the handler's sort
evaluates that index and panics (none) instead of absorbing the malformed
field as zero — while the same pipeline on well-formed fields completes
normally (the [500, 3000, 1000] example returns its top two). -/
theorem claim_C10 :
    goFieldsL ("" : String).data = [] ∧
    goFieldsL (" " : String).data = [] ∧
    usedMemKey procBadMem = none ∧
    rankShort demoLookup [procGoodMem, procBadMem] = none ∧
    rankShort demoLookup [procGoodMem, procBadMemWs] = none ∧
    rankShort demoLookup [procM500, procM3000, procM1000] =
      some [setUser demoLookup procM3000, setUser demoLookup procM1000] := by
  decide

example : parseMemoryValue "1024 MiB" = 1073741824 := by decide
example : parseMemoryValue "1 GiB" = 1073741824 := by decide
example : parseMemoryValue "4 KiB" = 4096 := by decide
example : parseMemoryValue "100 B" = 0 := by decide
example : parseMemoryValue "100B" = 100 := by decide
example : parseMemoryValue "abc MiB" = 0 := by decide
example : parseMemoryValue "" = 0 := by decide
example : parseMemoryValue "1.5 KiB" = 1536 := by decide
example : parsePowerValue "250.00 W" = 250000 := by decide
example : parsePowerValue "N/A" = 0 := by decide
example : parsePowerValue "" = 0 := by decide
example : parsePowerValue "42" = 42000 := by decide
example : parsePowerValue "abc" = 0 := by decide
example : parseUtilizationDec "150 %" = ⟨150, 0⟩ := by decide
example : parseUtilizationDec "xyz" = ⟨0, 0⟩ := by decide
example : parseTemperature "65 C" = 65 := by decide

end GPUMon
